import Mathlib

/-!
Verification of the `norun` sandboxed-execution core
(`src/build/lib/norun/core.py`) against its natural-language
specification.

The embedding models the host as an explicit record (`Host`): the
ambient process environment `os.environ`, the filesystem-existence
probe `Path(...).exists()`, the user's home directory `Path.home()`,
executable lookup `shutil.which`, and the value of the program's
`CACHE_DIR` constant (imported from `norun.config`, whose source is
outside the verified core; only its string value is relevant here).
Python `dict`s of environment variables are modelled as association
lists looked up with `List.lookup` (first binding wins); Python
`dict` assignment removes any earlier binding for the key and adds
the new one, so lookups agree with Python semantics.
-/

/-- Environment mappings: Python `dict[str, str]` as an association list. -/
abbrev EnvMap : Type := List (String × String)

/-- Python `d[k] = v`: replace any existing binding of `k` and bind `k` to `v`. -/
def setEnv (m : EnvMap) (k v : String) : EnvMap :=
  (k, v) :: List.filter (fun p => p.1 ≠ k) m

/-- Python `d.setdefault(k, v)`: bind `k` to `v` only when `k` is absent
(even an empty-string value counts as present). -/
def setDefaultEnv (m : EnvMap) (k v : String) : EnvMap :=
  match List.lookup k m with
  | some _ => m
  | none => setEnv m k v

/-- The host state visible to the core: ambient environment, filesystem
existence probe, home directory, `shutil.which`, and the `CACHE_DIR` value. -/
structure Host where
  environ : EnvMap
  pathEx : String → Bool
  home : String
  which : String → Option String
  cacheDir : String

/-- `_env_for` (core.py lines 24-30): copy `os.environ`, set `WINEPREFIX`,
`setdefault` `WINEDEBUG` to `"-all"`, and point the two shader-cache
variables at the private cache root. -/
def env_for (h : Host) (pfx : String) : EnvMap :=
  let env := h.environ
  let env := setEnv env "WINEPREFIX" pfx
  let env := setDefaultEnv env "WINEDEBUG" "-all"
  let env := setEnv env "DXVK_STATE_CACHE_PATH" (h.cacheDir ++ "/dxvk")
  let env := setEnv env "VKD3D_SHADER_CACHE_PATH" (h.cacheDir ++ "/vkd3d")
  env

theorem lookup_setEnv_self (m : EnvMap) (k v : String) :
    List.lookup k (setEnv m k v) = some v := by
  simp [setEnv, List.lookup]

theorem lookup_filter_ne {m : List (String × String)} {k k' : String} (h : k' ≠ k) :
    List.lookup k' (List.filter (fun p => p.1 ≠ k) m) = List.lookup k' m := by
  induction m with
  | nil => simp
  | cons a t ih =>
    by_cases ha : a.1 = k
    · rw [List.filter_cons_of_neg (by simp [ha])]
      have hne : (k' == a.1) = false := by
        rw [ha]
        simpa using h
      simp only [List.lookup, hne]
      exact ih
    · rw [List.filter_cons_of_pos (by simp [ha])]
      simp only [List.lookup]
      rcases heq : (k' == a.1) with _ | _
      · exact ih
      · rfl

theorem lookup_setEnv_ne (m : EnvMap) (k v k' : String) (h : k' ≠ k) :
    List.lookup k' (setEnv m k v) = List.lookup k' m := by
  have hbe : (k' == k) = false := by simpa using h
  simp only [setEnv, List.lookup, hbe, ite_false]
  exact lookup_filter_ne h

theorem lookup_setDefaultEnv_self (m : EnvMap) (k v : String) :
    List.lookup k (setDefaultEnv m k v) = some ((List.lookup k m).getD v) := by
  unfold setDefaultEnv
  rcases hm : List.lookup k m with _ | w
  · simp [hm, lookup_setEnv_self]
  · simp [hm]

theorem lookup_setDefaultEnv_ne (m : EnvMap) (k v k' : String) (h : k' ≠ k) :
    List.lookup k' (setDefaultEnv m k v) = List.lookup k' m := by
  unfold setDefaultEnv
  rcases hm : List.lookup k m with _ | w
  · exact lookup_setEnv_ne m k v k' h
  · rfl

/-- Amended C7: environment composition overrides the prefix variable and the
two shader-cache variables unconditionally; the debug-verbosity variable
becomes `"-all"` only when it is absent from the inherited environment (an
existing binding is kept even when its value is the empty string); all other
variables are passed through from the inherited environment unchanged. -/
theorem env_for_overrides (h : Host) (pfx : String) :
    List.lookup "WINEPREFIX" (env_for h pfx) = some pfx
    ∧ List.lookup "DXVK_STATE_CACHE_PATH" (env_for h pfx) = some (h.cacheDir ++ "/dxvk")
    ∧ List.lookup "VKD3D_SHADER_CACHE_PATH" (env_for h pfx) = some (h.cacheDir ++ "/vkd3d")
    ∧ List.lookup "WINEDEBUG" (env_for h pfx)
        = some ((List.lookup "WINEDEBUG" h.environ).getD "-all")
    ∧ ∀ k, k ≠ "WINEPREFIX" → k ≠ "WINEDEBUG" →
        k ≠ "DXVK_STATE_CACHE_PATH" → k ≠ "VKD3D_SHADER_CACHE_PATH" →
        List.lookup k (env_for h pfx) = List.lookup k h.environ := by
  unfold env_for
  refine ⟨?_, ?_, ?_, ?_, ?_⟩
  · rw [lookup_setEnv_ne _ _ _ _ (by decide), lookup_setEnv_ne _ _ _ _ (by decide),
      lookup_setDefaultEnv_ne _ _ _ _ (by decide), lookup_setEnv_self]
  · rw [lookup_setEnv_ne _ _ _ _ (by decide), lookup_setEnv_self]
  · rw [lookup_setEnv_self]
  · rw [lookup_setEnv_ne _ _ _ _ (by decide), lookup_setEnv_ne _ _ _ _ (by decide),
      lookup_setDefaultEnv_self]
    rcases hw : List.lookup "WINEDEBUG" h.environ with _ | w
    · rw [lookup_setEnv_ne _ _ _ _ (by decide)]
      simp [hw]
    · rw [lookup_setEnv_ne _ _ _ _ (by decide)]
      simp [hw]
  · intro k h1 h2 h3 h4
    rw [lookup_setEnv_ne _ _ _ _ h4, lookup_setEnv_ne _ _ _ _ h3,
      lookup_setDefaultEnv_ne _ _ _ _ h2, lookup_setEnv_ne _ _ _ _ h1]

/-- A host whose inherited environment carries `WINEDEBUG` bound to the empty
string: the caller has set the variable but not to a non-empty override. -/
def hostDbg : Host where
  environ := [("WINEDEBUG", ""), ("PATH", "/usr/bin")]
  pathEx := fun p => p = "/" || p = "/dev"
  home := "/home/u"
  which := fun _ => none
  cacheDir := "/home/u/.cache/norun"

/-- Counterexample to C7 as stated: with `WINEDEBUG` inherited as the empty
string (no non-empty caller override), composition keeps the empty value
instead of setting the suppress-all value `"-all"`. -/
theorem env_for_empty_winedebug_kept :
    List.lookup "WINEDEBUG" hostDbg.environ = some ""
    ∧ List.lookup "WINEDEBUG" (env_for hostDbg "/pfx") = some ""
    ∧ List.lookup "WINEDEBUG" (env_for hostDbg "/pfx") ≠ some "-all" := by
  refine ⟨by decide, by decide, by decide⟩

/-- Witness for `env_for_overrides` at a concrete host and key. -/
theorem env_for_overrides_witness :
    List.lookup "WINEPREFIX" (env_for hostDbg "/pfx") = some "/pfx"
    ∧ List.lookup "PATH" (env_for hostDbg "/pfx") = List.lookup "PATH" hostDbg.environ := by
  refine ⟨(env_for_overrides hostDbg "/pfx").1, ?_⟩
  exact (env_for_overrides hostDbg "/pfx").2.2.2.2 "PATH"
    (by decide) (by decide) (by decide) (by decide)

/-! ## SandboxPolicyBuilder: `_wrap_bwrap` (core.py lines 33-115)

The builder produces a flat `bwrap` argument vector.  It is embedded as the
concatenation of the source's four sections: the unconditional isolation
flags, the device/session/display conditionals, the mode-specific binds, and
the caller's extra directives appended verbatim.  `parseArgs` recovers the
`(flag, host-source-path)` pairs of the bind directives from the flat vector
exactly the way `bwrap` itself consumes its argument list. -/

/-- `str(Path.home() / ".local" / "share" / "norun")`. -/
def norunRoot (h : Host) : String := h.home ++ "/.local/share/norun"

/-- `str(Path.home() / "Downloads")`. -/
def downloadsDir (h : Host) : String := h.home ++ "/Downloads"

/-- Python truthiness of `os.environ.get("DISPLAY")`. -/
def displayOn (h : Host) : Bool :=
  match List.lookup "DISPLAY" h.environ with
  | some v => v ≠ ""
  | none => false

/-- `os.environ.get("XAUTHORITY") or str(Path.home() / ".Xauthority")`:
Python `or` falls through on a missing or empty value. -/
def xauthPath (h : Host) : String :=
  match List.lookup "XAUTHORITY" h.environ with
  | some v => if v = "" then h.home ++ "/.Xauthority" else v
  | none => h.home ++ "/.Xauthority"

/-- The unconditional isolation flags (core.py lines 58-74). -/
def baseBinds : List String :=
  ["--unshare-all", "--share-net", "--die-with-parent", "--new-session",
   "--dev-bind", "/dev", "/dev",
   "--ro-bind", "/", "/",
   "--proc", "/proc",
   "--tmpfs", "/tmp"]

/-- The device / session-runtime / display conditionals (core.py lines 76-90). -/
def condBinds (h : Host) : List String :=
  (if h.pathEx "/dev/dri" then ["--dev-bind", "/dev/dri", "/dev/dri"] else [])
  ++ (match List.lookup "XDG_RUNTIME_DIR" h.environ with
      | some v => if v ≠ "" && h.pathEx v then ["--bind", v, v] else []
      | none => [])
  ++ (if displayOn h then
        (if h.pathEx "/tmp/.X11-unix" then
          ["--bind", "/tmp/.X11-unix", "/tmp/.X11-unix"] else [])
        ++ (if h.pathEx "/tmp/.ICE-unix" then
          ["--bind", "/tmp/.ICE-unix", "/tmp/.ICE-unix"] else [])
      else [])

/-- The mode-specific binds (core.py lines 94-109); any validated mode other
than `"full"` is `"strict"`. -/
def modeBinds (h : Host) (mode : String) (allow_downloads : Bool) : List String :=
  if mode = "full" then
    ["--bind", h.home, h.home]
    ++ (if allow_downloads && h.pathEx (downloadsDir h) then
          ["--bind", downloadsDir h, downloadsDir h] else [])
  else
    (if h.pathEx (norunRoot h) then
      ["--bind", norunRoot h, norunRoot h] else [])
    ++ (if allow_downloads && h.pathEx (downloadsDir h) then
          ["--bind", downloadsDir h, downloadsDir h] else [])
    ++ (if xauthPath h ≠ "" && h.pathEx (xauthPath h) then
          ["--ro-bind", xauthPath h, xauthPath h] else [])

/-- The full `binds` list built by `_wrap_bwrap`, extras appended verbatim. -/
def wrapBinds (h : Host) (mode : String) (allow_downloads : Bool)
    (extra_binds : List String) : List String :=
  baseBinds ++ condBinds h ++ modeBinds h mode allow_downloads ++ extra_binds

/-- `_wrap_bwrap`: validate the mode, then return `["bwrap", *binds, "--", *cmd]`;
an unknown mode raises (modelled as `Except.error`) before any directive is built. -/
def wrap_bwrap (h : Host) (cmd : List String) (mode : String)
    (allow_downloads : Bool) (extra_binds : List String) : Except String (List String) :=
  if mode = "full" ∨ mode = "strict" then
    Except.ok ("bwrap" :: (wrapBinds h mode allow_downloads extra_binds ++ "--" :: cmd))
  else
    Except.error "sandbox mode must be one of: full, strict"

/-- Flags that take a host-source and a sandbox-destination argument. -/
def isBindFlag (x : String) : Bool :=
  x = "--bind" || x = "--ro-bind" || x = "--dev-bind"

/-- Flags that take a single (destination-only) argument. -/
def isUnaryFlag (x : String) : Bool :=
  x = "--proc" || x = "--tmpfs"

/-- Recover the `(flag, host-source-path)` pairs of the bind directives from a
flat `bwrap` argument vector, consuming arguments the way `bwrap` does. -/
def parseArgs : List String → List (String × String)
  | x :: s :: d :: rest =>
    if isBindFlag x then (x, s) :: parseArgs rest
    else if isUnaryFlag x then parseArgs (d :: rest)
    else parseArgs (s :: d :: rest)
  | [x, s] =>
    if isBindFlag x then []
    else if isUnaryFlag x then []
    else parseArgs [s]
  | [_] => []
  | [] => []

@[simp] theorem parseArgs_nil : parseArgs [] = [] := rfl

theorem parseArgs_bind3 (f s d : String) (rest : List String) (hf : isBindFlag f = true) :
    parseArgs (f :: s :: d :: rest) = (f, s) :: parseArgs rest := by
  simp [parseArgs, hf]

theorem parseArgs_unary (f a : String) (rest : List String)
    (hf : isBindFlag f = false) (hu : isUnaryFlag f = true) :
    parseArgs (f :: a :: rest) = parseArgs rest := by
  cases rest with
  | nil => simp [parseArgs, hf, hu]
  | cons r rs => simp [parseArgs, hf, hu]

theorem parseArgs_skip (f : String) (rest : List String)
    (hf : isBindFlag f = false) (hu : isUnaryFlag f = false) :
    parseArgs (f :: rest) = parseArgs rest := by
  cases rest with
  | nil => simp [parseArgs]
  | cons s rs =>
    cases rs with
    | nil => simp [parseArgs, hf, hu]
    | cons d rr => simp [parseArgs, hf, hu]

@[simp] theorem parseArgs_bind (s d : String) (rest : List String) :
    parseArgs ("--bind" :: s :: d :: rest) = ("--bind", s) :: parseArgs rest :=
  parseArgs_bind3 _ s d rest (by decide)

@[simp] theorem parseArgs_robind (s d : String) (rest : List String) :
    parseArgs ("--ro-bind" :: s :: d :: rest) = ("--ro-bind", s) :: parseArgs rest :=
  parseArgs_bind3 _ s d rest (by decide)

@[simp] theorem parseArgs_devbind (s d : String) (rest : List String) :
    parseArgs ("--dev-bind" :: s :: d :: rest) = ("--dev-bind", s) :: parseArgs rest :=
  parseArgs_bind3 _ s d rest (by decide)

@[simp] theorem parseArgs_proc (a : String) (rest : List String) :
    parseArgs ("--proc" :: a :: rest) = parseArgs rest :=
  parseArgs_unary _ a rest (by decide) (by decide)

@[simp] theorem parseArgs_tmpfs (a : String) (rest : List String) :
    parseArgs ("--tmpfs" :: a :: rest) = parseArgs rest :=
  parseArgs_unary _ a rest (by decide) (by decide)

@[simp] theorem parseArgs_unshare (rest : List String) :
    parseArgs ("--unshare-all" :: rest) = parseArgs rest :=
  parseArgs_skip _ rest (by decide) (by decide)

@[simp] theorem parseArgs_sharenet (rest : List String) :
    parseArgs ("--share-net" :: rest) = parseArgs rest :=
  parseArgs_skip _ rest (by decide) (by decide)

@[simp] theorem parseArgs_diewithparent (rest : List String) :
    parseArgs ("--die-with-parent" :: rest) = parseArgs rest :=
  parseArgs_skip _ rest (by decide) (by decide)

@[simp] theorem parseArgs_newsession (rest : List String) :
    parseArgs ("--new-session" :: rest) = parseArgs rest :=
  parseArgs_skip _ rest (by decide) (by decide)

theorem parseArgs_if_bind3 (c : Prop) [Decidable c] (f a b : String)
    (hf : isBindFlag f = true) (rest : List String) :
    parseArgs ((if c then [f, a, b] else []) ++ rest)
      = (if c then [(f, a)] else []) ++ parseArgs rest := by
  by_cases hc : c
  · simp only [if_pos hc, List.cons_append, List.nil_append, List.singleton_append]
    exact parseArgs_bind3 f a b rest hf
  · simp [if_neg hc]

/-- The `(flag, host-source)` pairs of the conditional section. -/
def condPairs (h : Host) : List (String × String) :=
  (if h.pathEx "/dev/dri" then [("--dev-bind", "/dev/dri")] else [])
  ++ (match List.lookup "XDG_RUNTIME_DIR" h.environ with
      | some v => if v ≠ "" && h.pathEx v then [("--bind", v)] else []
      | none => [])
  ++ (if displayOn h then
        (if h.pathEx "/tmp/.X11-unix" then [("--bind", "/tmp/.X11-unix")] else [])
        ++ (if h.pathEx "/tmp/.ICE-unix" then [("--bind", "/tmp/.ICE-unix")] else [])
      else [])

/-- The `(flag, host-source)` pairs of the mode-specific section. -/
def modePairs (h : Host) (mode : String) (allow : Bool) : List (String × String) :=
  if mode = "full" then
    ("--bind", h.home)
      :: (if allow && h.pathEx (downloadsDir h) then [("--bind", downloadsDir h)] else [])
  else
    (if h.pathEx (norunRoot h) then [("--bind", norunRoot h)] else [])
    ++ (if allow && h.pathEx (downloadsDir h) then [("--bind", downloadsDir h)] else [])
    ++ (if xauthPath h ≠ "" && h.pathEx (xauthPath h) then [("--ro-bind", xauthPath h)] else [])

/-- All `(flag, host-source)` pairs of the builder's own directives. -/
def parsedBinds (h : Host) (mode : String) (allow : Bool) : List (String × String) :=
  [("--dev-bind", "/dev"), ("--ro-bind", "/")] ++ condPairs h ++ modePairs h mode allow

theorem parseArgs_wrapBinds (h : Host) (mode : String) (allow : Bool)
    (extra : List String) :
    parseArgs (wrapBinds h mode allow extra) = parsedBinds h mode allow ++ parseArgs extra := by
  unfold wrapBinds baseBinds parsedBinds condBinds condPairs modeBinds modePairs
  rcases hx : List.lookup "XDG_RUNTIME_DIR" h.environ with _ | v
  all_goals by_cases hd : displayOn h = true
  all_goals by_cases hm : mode = "full"
  all_goals simp [hx, hd, hm, List.append_assoc, parseArgs_if_bind3, isBindFlag]

theorem append_ne_self_right (s t : String) (ht : t ≠ "") : s ++ t ≠ s := by
  intro he
  apply ht
  have hl := congrArg String.length he
  rw [String.length_append] at hl
  have h0 : t.length = 0 := by omega
  exact String.ext (List.length_eq_zero.mp h0)

theorem append_right_ne (s a b : String) (hab : a ≠ b) : s ++ a ≠ s ++ b := by
  intro he
  apply hab
  have hd := congrArg String.data he
  rw [String.data_append, String.data_append] at hd
  exact String.ext (List.append_cancel_left hd)

theorem mem_if_nil {α : Type} (c : Prop) [Decidable c] (l : List α) (x : α) :
    (x ∈ if c then l else []) ↔ (c ∧ x ∈ l) := by
  split <;> simp [*]

theorem mem_parsedBinds (h : Host) (mode : String) (allow : Bool) (pr : String × String) :
    pr ∈ parsedBinds h mode allow ↔
      pr = ("--dev-bind", "/dev") ∨ pr = ("--ro-bind", "/")
      ∨ (h.pathEx "/dev/dri" = true ∧ pr = ("--dev-bind", "/dev/dri"))
      ∨ (∃ v, List.lookup "XDG_RUNTIME_DIR" h.environ = some v
          ∧ (v ≠ "" && h.pathEx v) = true ∧ pr = ("--bind", v))
      ∨ (displayOn h = true ∧ h.pathEx "/tmp/.X11-unix" = true
          ∧ pr = ("--bind", "/tmp/.X11-unix"))
      ∨ (displayOn h = true ∧ h.pathEx "/tmp/.ICE-unix" = true
          ∧ pr = ("--bind", "/tmp/.ICE-unix"))
      ∨ (mode = "full" ∧ pr = ("--bind", h.home))
      ∨ (mode ≠ "full" ∧ h.pathEx (norunRoot h) = true ∧ pr = ("--bind", norunRoot h))
      ∨ ((allow && h.pathEx (downloadsDir h)) = true ∧ pr = ("--bind", downloadsDir h))
      ∨ (mode ≠ "full" ∧ (xauthPath h ≠ "" && h.pathEx (xauthPath h)) = true
          ∧ pr = ("--ro-bind", xauthPath h)) := by
  unfold parsedBinds condPairs modePairs
  rcases hx : List.lookup "XDG_RUNTIME_DIR" h.environ with _ | v <;>
    by_cases hm : mode = "full" <;>
      simp [hx, hm, mem_if_nil, List.mem_append, List.mem_cons, and_or_left, and_assoc,
        or_assoc]

/-- A typical host for witnesses: display configured, session runtime present,
home and Downloads directories existing, wine/bwrap installed. -/
def hostW : Host where
  environ := [("DISPLAY", ":0"), ("XDG_RUNTIME_DIR", "/run/user/1000")]
  pathEx := fun p =>
    p = "/" || p = "/dev" || p = "/dev/dri" || p = "/run/user/1000"
    || p = "/tmp/.X11-unix" || p = "/home/u" || p = "/home/u/Downloads"
  home := "/home/u"
  which := fun n =>
    if n = "bwrap" then some "/usr/bin/bwrap"
    else if n = "wine" then some "/usr/bin/wine"
    else if n = "wineserver" then some "/usr/bin/wineserver"
    else none
  cacheDir := "/home/u/.cache/norun"

/-- Counterexample to C1 as stated: the claim quantifies over every
extra-directives list, but extras are appended verbatim, so in Strict mode a
caller extra can place a read-write home bind in the produced directive list. -/
theorem strict_extras_home_bind :
    ("--bind", hostDbg.home)
      ∈ parseArgs (wrapBinds hostDbg "strict" true ["--bind", "/home/u", "/home/u"])
    ∧ "strict" ≠ "full" := by
  refine ⟨by decide, by decide⟩

/-- Amended C1: with no caller extras, and when the session-runtime variable
does not name the home or Downloads directory and neither of those equals the
X11/ICE socket directories, the builder's own directives contain a read-write
bind of home iff the mode is Full, and a read-write bind of Downloads iff
allowDownloads holds and the directory exists at build time. -/
theorem home_downloads_bind_iff (h : Host) (mode : String) (allow : Bool)
    (hx1 : List.lookup "XDG_RUNTIME_DIR" h.environ ≠ some h.home)
    (hx2 : List.lookup "XDG_RUNTIME_DIR" h.environ ≠ some (downloadsDir h))
    (hs1 : h.home ≠ "/tmp/.X11-unix") (hs2 : h.home ≠ "/tmp/.ICE-unix")
    (hd1 : downloadsDir h ≠ "/tmp/.X11-unix") (hd2 : downloadsDir h ≠ "/tmp/.ICE-unix") :
    ((("--bind", h.home) ∈ parseArgs (wrapBinds h mode allow [])) ↔ mode = "full")
    ∧ ((("--bind", downloadsDir h) ∈ parseArgs (wrapBinds h mode allow []))
        ↔ (allow = true ∧ h.pathEx (downloadsDir h) = true)) := by
  have hp : parseArgs (wrapBinds h mode allow []) = parsedBinds h mode allow := by
    rw [parseArgs_wrapBinds]
    simp
  have ne_home_dl : h.home ≠ downloadsDir h := fun he =>
    append_ne_self_right h.home "/Downloads" (by decide) he.symm
  have ne_home_norun : h.home ≠ norunRoot h := fun he =>
    append_ne_self_right h.home "/.local/share/norun" (by decide) he.symm
  have ne_dl_norun : downloadsDir h ≠ norunRoot h :=
    append_right_ne h.home "/Downloads" "/.local/share/norun" (by decide)
  have nbd : ("--bind" : String) ≠ "--dev-bind" := by decide
  have nbr : ("--bind" : String) ≠ "--ro-bind" := by decide
  constructor
  · rw [hp, mem_parsedBinds]
    constructor
    · rintro (h1 | h1 | ⟨hc, h1⟩ | ⟨v, hv, hc, h1⟩ | ⟨hdp, hc, h1⟩ | ⟨hdp, hc, h1⟩
        | ⟨hf, h1⟩ | ⟨hne, hc, h1⟩ | ⟨hc, h1⟩ | ⟨hne, hc, h1⟩)
      · exact absurd (congrArg Prod.fst h1) nbd
      · exact absurd (congrArg Prod.fst h1) nbr
      · exact absurd (congrArg Prod.fst h1) nbd
      · have hv2 : h.home = v := congrArg Prod.snd h1
        rw [← hv2] at hv
        exact absurd hv hx1
      · exact absurd (congrArg Prod.snd h1) hs1
      · exact absurd (congrArg Prod.snd h1) hs2
      · exact hf
      · exact absurd (congrArg Prod.snd h1) ne_home_norun
      · exact absurd (congrArg Prod.snd h1) ne_home_dl
      · exact absurd (congrArg Prod.fst h1) nbr
    · intro hf
      exact Or.inr (Or.inr (Or.inr (Or.inr (Or.inr (Or.inr (Or.inl ⟨hf, rfl⟩))))))
  · rw [hp, mem_parsedBinds]
    constructor
    · rintro (h1 | h1 | ⟨hc, h1⟩ | ⟨v, hv, hc, h1⟩ | ⟨hdp, hc, h1⟩ | ⟨hdp, hc, h1⟩
        | ⟨hf, h1⟩ | ⟨hne, hc, h1⟩ | ⟨hc, h1⟩ | ⟨hne, hc, h1⟩)
      · exact absurd (congrArg Prod.fst h1) nbd
      · exact absurd (congrArg Prod.fst h1) nbr
      · exact absurd (congrArg Prod.fst h1) nbd
      · have hv2 : downloadsDir h = v := congrArg Prod.snd h1
        rw [← hv2] at hv
        exact absurd hv hx2
      · exact absurd (congrArg Prod.snd h1) hd1
      · exact absurd (congrArg Prod.snd h1) hd2
      · exact absurd (congrArg Prod.snd h1) (Ne.symm ne_home_dl)
      · exact absurd (congrArg Prod.snd h1) ne_dl_norun
      · rw [Bool.and_eq_true] at hc
        exact hc
      · exact absurd (congrArg Prod.fst h1) nbr
    · rintro ⟨ha, hpx⟩
      refine Or.inr (Or.inr (Or.inr (Or.inr (Or.inr (Or.inr (Or.inr (Or.inr (Or.inl
        ⟨?_, rfl⟩))))))))
      rw [Bool.and_eq_true]
      exact ⟨ha, hpx⟩

/-- Witness for `home_downloads_bind_iff` at a concrete host in Full mode. -/
theorem home_downloads_bind_iff_witness :
    ((("--bind", hostW.home) ∈ parseArgs (wrapBinds hostW "full" true [])) ↔ "full" = "full")
    ∧ ((("--bind", downloadsDir hostW) ∈ parseArgs (wrapBinds hostW "full" true []))
        ↔ (true = true ∧ hostW.pathEx (downloadsDir hostW) = true)) :=
  home_downloads_bind_iff hostW "full" true (by decide) (by decide) (by decide)
    (by decide) (by decide) (by decide)

/-- Counterexample to C2 as stated: extras are appended verbatim and never
existence-checked, so a bind directive whose host source path does not exist
can appear in the builder's output. -/
theorem nonexistent_extra_bind_emitted :
    ("--bind", "/nope")
      ∈ parseArgs (wrapBinds hostDbg "strict" false ["--bind", "/nope", "/nope"])
    ∧ hostDbg.pathEx "/nope" = false := by
  refine ⟨by decide, by decide⟩

/-- Amended C2: with no caller extras, on a host where `/` and `/dev` exist
(and, in Full mode, the home directory exists), every bind directive in the
builder's output names a host path that existed at directive-construction
time; all conditional binds are existence-guarded by the builder itself. -/
theorem wrapBinds_sources_exist (h : Host) (mode : String) (allow : Bool)
    (hroot : h.pathEx "/" = true) (hdev : h.pathEx "/dev" = true)
    (hhome : mode = "full" → h.pathEx h.home = true) :
    ∀ pr ∈ parseArgs (wrapBinds h mode allow []), h.pathEx pr.2 = true := by
  intro pr hpr
  rw [parseArgs_wrapBinds] at hpr
  simp only [parseArgs_nil, List.append_nil] at hpr
  rw [mem_parsedBinds] at hpr
  rcases hpr with h1 | h1 | ⟨hc, h1⟩ | ⟨v, hv, hc, h1⟩ | ⟨hdp, hc, h1⟩ | ⟨hdp, hc, h1⟩
    | ⟨hf, h1⟩ | ⟨hne, hc, h1⟩ | ⟨hc, h1⟩ | ⟨hne, hc, h1⟩
  · rw [h1]; exact hdev
  · rw [h1]; exact hroot
  · rw [h1]; exact hc
  · rw [Bool.and_eq_true] at hc
    rw [h1]
    exact hc.2
  · rw [h1]; exact hc
  · rw [h1]; exact hc
  · rw [h1]; exact hhome hf
  · rw [h1]; exact hc
  · rw [Bool.and_eq_true] at hc
    rw [h1]
    exact hc.2
  · rw [Bool.and_eq_true] at hc
    rw [h1]
    exact hc.2

/-- Witness for `wrapBinds_sources_exist` at a concrete host in Full mode. -/
theorem wrapBinds_sources_exist_witness :
    hostW.pathEx "/" = true
    ∧ ∀ pr ∈ parseArgs (wrapBinds hostW "full" true []), hostW.pathEx pr.2 = true :=
  ⟨by decide, wrapBinds_sources_exist hostW "full" true (by decide) (by decide)
    (fun _ => by decide)⟩

/-- C3: for both valid modes the produced vector starts with the fixed global
isolation flags in their fixed order (unshare-all namespaces, share network,
die-with-parent, new session, device bind of `/dev`, read-only bind of `/`
onto itself, fresh `/proc`, fresh empty `/tmp`), followed by exactly the
device/session/display conditionals (`condBinds`), then the mode-specific
binds (`modeBinds`) — neither depending on the command or the extras — with
the caller's extras appended verbatim last, before the `--` separator and
the command. -/
theorem wrap_bwrap_structure (h : Host) (mode : String) (allow : Bool)
    (hm : mode = "full" ∨ mode = "strict") :
    ∀ (cmd extra : List String),
      wrap_bwrap h cmd mode allow extra =
        Except.ok ("bwrap" ::
          ("--unshare-all" :: "--share-net" :: "--die-with-parent" :: "--new-session" ::
           "--dev-bind" :: "/dev" :: "/dev" :: "--ro-bind" :: "/" :: "/" ::
           "--proc" :: "/proc" :: "--tmpfs" :: "/tmp" ::
           (condBinds h ++ modeBinds h mode allow ++ extra ++ "--" :: cmd))) := by
  intro cmd extra
  rw [wrap_bwrap, if_pos hm]
  simp [wrapBinds, baseBinds, List.append_assoc]

/-- Witness for `wrap_bwrap_structure` at a concrete host, command and extras. -/
theorem wrap_bwrap_structure_witness :
    wrap_bwrap hostW ["wine", "app.exe"] "full" true ["--bind", "/x", "/x"] =
      Except.ok ("bwrap" ::
        ("--unshare-all" :: "--share-net" :: "--die-with-parent" :: "--new-session" ::
         "--dev-bind" :: "/dev" :: "/dev" :: "--ro-bind" :: "/" :: "/" ::
         "--proc" :: "/proc" :: "--tmpfs" :: "/tmp" ::
         (condBinds hostW ++ modeBinds hostW "full" true ++ ["--bind", "/x", "/x"]
           ++ "--" :: ["wine", "app.exe"]))) :=
  wrap_bwrap_structure hostW "full" true (Or.inl rfl) ["wine", "app.exe"]
    ["--bind", "/x", "/x"]

/-! ## ProcessSupervisor: `_run` (core.py lines 118-171)

The process-facing tail of `_run` (directory creation, log writing,
spawning, waiting) is I/O; the verified part is the pure preparation it
performs first: choosing the run environment, checking for the isolation
primitive, resolving the executable token, injecting the auxiliary
server-locator variable into the internal copy only, and wrapping the
command.  `runPrepare` returns the command line and environment that
`_run` hands to the process-spawn primitive, or the error it raises. -/

/-- `os.path.isabs` on POSIX: the path begins with a slash. -/
def isAbs (s : String) : Bool :=
  match s.data with
  | [] => false
  | c :: _ => c = '/'

/-- `os.path.basename` on POSIX: the part after the last slash. -/
def basename (s : String) : String :=
  String.mk (s.data.foldl (fun acc c => if c = '/' then [] else acc ++ [c]) [])

/-- The pure preparation performed by `_run` before spawning.  `env = None`
or an empty mapping falls back to the ambient environment (Python `env or
os.environ.copy()` is falsy on both); `run_env` is a copy, so the caller's
mapping is never written to.  An empty command reaches `cmd[0]` and raises
(modelled as an error). -/
def pyEnvOr (h : Host) (env : Option EnvMap) : EnvMap :=
  match env with
  | some e => if e = ([] : EnvMap) then h.environ else e
  | none => h.environ

def runPrepare (h : Host) (cmd : List String) (env : Option EnvMap) (sandbox : Bool)
    (allow_downloads : Bool) (sandbox_mode : String) (extra_binds : List String) :
    Except String (List String × EnvMap) :=
  let run_env := pyEnvOr h env
  if sandbox then
    if (h.which "bwrap").isNone then
      Except.error
        "Sandbox requested but bubblewrap (bwrap) not installed. Run: sudo apt install -y bubblewrap"
    else
      match cmd with
      | [] => Except.error "IndexError: cmd is empty"
      | c0 :: rest =>
        (if isAbs c0 then Except.ok c0
         else
           match h.which c0 with
           | some r => Except.ok r
           | none => Except.error ("Command not found: " ++ c0)).bind fun r =>
          let env2 :=
            if basename r = "wine" || basename r = "wine64" then
              match h.which "wineserver" with
              | some ws => setEnv run_env "WINESERVER" ws
              | none => run_env
            else run_env
          (wrap_bwrap h (r :: rest) sandbox_mode allow_downloads extra_binds).map
            (fun c => (c, env2))
  else Except.ok (cmd, run_env)

/-- C6: with sandboxing requested and the isolation primitive available, a
non-absolute executable token is resolved through the search path before
wrapping: an unresolvable token fails with the command-not-found error (no
command is produced for spawning), and a resolvable one appears as the
resolved absolute path, first after the `--` separator inside the wrapped
command, in place of the bare name. -/
theorem run_resolves_before_wrap (h : Host) (c0 : String) (rest : List String)
    (env : EnvMap) (allow : Bool) (mode : String) (extra : List String)
    (hbw : (h.which "bwrap").isNone = false)
    (habs : isAbs c0 = false)
    (hm : mode = "full" ∨ mode = "strict") :
    (h.which c0 = none →
      runPrepare h (c0 :: rest) (some env) true allow mode extra
        = Except.error ("Command not found: " ++ c0))
    ∧ (∀ r, h.which c0 = some r →
        (runPrepare h (c0 :: rest) (some env) true allow mode extra).map Prod.fst
          = Except.ok ("bwrap" :: (wrapBinds h mode allow extra ++ "--" :: r :: rest))) := by
  constructor
  · intro hw
    simp [runPrepare, hbw, habs, hw, Except.bind]
  · intro r hw
    simp [runPrepare, hbw, habs, hw, Except.bind, Except.map, wrap_bwrap, if_pos hm]

/-- Witness for `run_resolves_before_wrap`: on a concrete host the bare name
`"wine"` resolves and appears absolute inside the wrapped command, and an
unknown bare name fails with the command-not-found error. -/
theorem run_resolves_before_wrap_witness :
    runPrepare hostW ["nosuch", "x"] (some [("A", "1")]) true true "full" []
      = Except.error "Command not found: nosuch"
    ∧ (runPrepare hostW ["wine", "x"] (some [("A", "1")]) true true "full" []).map Prod.fst
        = Except.ok ("bwrap" ::
            (wrapBinds hostW "full" true [] ++ "--" :: "/usr/bin/wine" :: ["x"])) := by
  constructor
  · exact (run_resolves_before_wrap hostW "nosuch" ["x"] [("A", "1")] true "full" []
      (by decide) (by decide) (Or.inl rfl)).1 (by decide)
  · exact (run_resolves_before_wrap hostW "wine" ["x"] [("A", "1")] true "full" []
      (by decide) (by decide) (Or.inl rfl)).2 "/usr/bin/wine" (by decide)

theorem pyEnvOr_some_of_ne (h : Host) (env : EnvMap) (henv : env ≠ ([] : EnvMap)) :
    pyEnvOr h (some env) = env := by
  simp [pyEnvOr, henv]

/-- C9: the environment `_run` hands to the spawn primitive agrees with the
caller-supplied mapping on every key other than the auxiliary server-locator
variable `WINESERVER`: that variable is written only to the internal copy
(`run_env = (env or os.environ.copy()).copy()`), so in the embedding the
caller's mapping is a value the preparation never rebinds, and after the call
it is exactly what the caller passed.  (A non-empty mapping is required:
Python's `env or os.environ.copy()` falls back to the ambient environment on
an empty dict.) -/
theorem run_env_frame (h : Host) (cmd : List String) (env : EnvMap) (sandbox : Bool)
    (allow : Bool) (mode : String) (extra : List String)
    (henv : env ≠ ([] : EnvMap)) (p1 : List String) (p2 : EnvMap)
    (hok : runPrepare h cmd (some env) sandbox allow mode extra = Except.ok (p1, p2)) :
    ∀ k, k ≠ "WINESERVER" → List.lookup k p2 = List.lookup k env := by
  intro k hk
  cases sandbox with
  | false =>
    simp [runPrepare, pyEnvOr_some_of_ne h env henv] at hok
    rcases hok with ⟨hok1, hok2⟩
    subst hok2
    rfl
  | true =>
    rcases hbw : h.which "bwrap" with _ | b
    · simp [runPrepare, hbw] at hok
    · cases cmd with
      | nil => simp [runPrepare, hbw] at hok
      | cons c0 rest =>
        rcases hres : (if isAbs c0 = true then Except.ok c0
            else match h.which c0 with
              | some r => Except.ok r
              | none => Except.error ("Command not found: " ++ c0)) with e | r
        · simp [runPrepare, hbw, hres, Except.bind] at hok
        · rcases hwrap : wrap_bwrap h (r :: rest) mode allow extra with e2 | out
          · simp [runPrepare, hbw, hres, hwrap, Except.bind, Except.map] at hok
          · by_cases hws : (basename r = "wine" || basename r = "wine64") = true
            · rcases hwsv : h.which "wineserver" with _ | ws
              · simp [runPrepare, pyEnvOr_some_of_ne h env henv, hbw, hres, hwrap, hws,
                  hwsv, Except.bind, Except.map] at hok
                rcases hok with ⟨hok1, hok2⟩
                subst hok2
                rfl
              · simp [runPrepare, pyEnvOr_some_of_ne h env henv, hbw, hres, hwrap, hws,
                  hwsv, Except.bind, Except.map] at hok
                rcases hok with ⟨hok1, hok2⟩
                subst hok2
                exact lookup_setEnv_ne env "WINESERVER" ws k hk
            · simp [runPrepare, pyEnvOr_some_of_ne h env henv, hbw, hres, hwrap, hws,
                Except.bind, Except.map] at hok
              rcases hok with ⟨hok1, hok2⟩
              subst hok2
              rfl

/-- Witness for `run_env_frame`: a concrete non-sandboxed run returns the
caller's mapping unchanged. -/
theorem run_env_frame_witness :
    (([("A", "1")] : EnvMap) ≠ ([] : EnvMap))
    ∧ List.lookup "B" ([("A", "1")] : EnvMap) = List.lookup "B" ([("A", "1")] : EnvMap) := by
  refine ⟨by decide, ?_⟩
  exact run_env_frame hostW ["wine", "x"] [("A", "1")] false true "full" [] (by decide)
    ["wine", "x"] [("A", "1")] (by rfl) "B" (by decide)

/-! ## RunOrchestrator: `install` (core.py lines 268-304)

In the non-portable branch, `install` runs the installer through `_run`
with `sandbox=sandbox_install`, `allow_downloads=True` and the literal
`sandbox_mode="full"`; the app's persisted `cfg["sandbox_mode"]` is never
read. -/

/-- The persisted per-app configuration consumed read-only by the core
(shape from `create_app`, core.py lines 217-225). -/
structure AppConfig where
  name : String
  profile : String
  runner : String
  prefixPath : String
  last_exe : String
  sandbox : Bool
  sandbox_mode : String

/-- The `_run` invocation `install` performs for the installer
(core.py lines 295-302): command `["wine", installer]`, the composed
environment, `allow_downloads=True`, mode literally `"full"`. -/
def installPrepare (h : Host) (cfg : AppConfig) (installer : String)
    (sandbox_install : Bool) : Except String (List String × EnvMap) :=
  runPrepare h ["wine", installer] (some (env_for h cfg.prefixPath))
    sandbox_install true "full" []

/-- C8: when an installer is run with sandboxing requested, the sandbox
policy is built with mode Full no matter what the app's persisted sandbox
mode says (here: a config persisting Strict): the wrapped command is the
full-mode wrap, whose directives include the read-write home bind that
Strict forbids. -/
theorem install_forces_full_mode (h : Host) (cfg : AppConfig) (inst : String)
    (w : String)
    (_hcfg : cfg.sandbox_mode = "strict")
    (hbw : (h.which "bwrap").isNone = false)
    (hw : h.which "wine" = some w) :
    (installPrepare h cfg inst true).map Prod.fst
        = Except.ok ("bwrap" :: (wrapBinds h "full" true [] ++ "--" :: w :: [inst]))
    ∧ ("--bind", h.home) ∈ parseArgs (wrapBinds h "full" true []) := by
  constructor
  · have habs : isAbs "wine" = false := by decide
    simp [installPrepare, runPrepare, hbw, habs, hw, Except.bind, Except.map, wrap_bwrap]
  · rw [parseArgs_wrapBinds]
    simp only [parseArgs_nil, List.append_nil]
    rw [mem_parsedBinds]
    exact Or.inr (Or.inr (Or.inr (Or.inr (Or.inr (Or.inr (Or.inl ⟨rfl, rfl⟩))))))

/-- A persisted configuration whose run-time sandbox mode is Strict. -/
def cfgStrict : AppConfig where
  name := "app"
  profile := "general"
  runner := "wine"
  prefixPath := "/home/u/.local/share/norun/prefixes/app"
  last_exe := ""
  sandbox := true
  sandbox_mode := "strict"

/-- Witness for `install_forces_full_mode` on a concrete host and config. -/
theorem install_forces_full_mode_witness :
    (installPrepare hostW cfgStrict "/home/u/Downloads/setup.exe" true).map Prod.fst
        = Except.ok ("bwrap" :: (wrapBinds hostW "full" true []
            ++ "--" :: "/usr/bin/wine" :: ["/home/u/Downloads/setup.exe"]))
    ∧ ("--bind", hostW.home) ∈ parseArgs (wrapBinds hostW "full" true []) :=
  install_forces_full_mode hostW cfgStrict "/home/u/Downloads/setup.exe" "/usr/bin/wine"
    rfl (by decide) (by decide)

/-! ## ExeAutodetector: `_autodetect_exe` (core.py lines 307-382)

Paths are modelled as Python `Path.parts` tuples: a list of components whose
head is `"/"` for absolute paths, so `len(path.parts)`, `str(path)`,
`path.name` and `relative_to` are direct functions of the list.  The
filesystem snapshot is the sequence of files produced by the directory walk
(`rglob` order), plus the directory-existence probe for the two scan roots;
`sorted(�, key=score)` is Python's stable sort, embedded as a stable
insertion sort on the same strict three-key comparison. -/

/-- Whether `root` is a leading segment of `p` (component-wise). -/
def leadsParts : List String → List String → Bool
  | [], _ => true
  | _ :: _, [] => false
  | a :: as, b :: bs => a == b && leadsParts as bs

/-- `"/".join` of path components (relative form). -/
def joinSlash : List String → String
  | [] => ""
  | [x] => x
  | x :: xs => x ++ "/" ++ joinSlash xs

/-- `str(path)` for a `parts` list: absolute when the first component is `/`. -/
def pstr (p : List String) : String :=
  match p with
  | "/" :: rest => "/" ++ joinSlash rest
  | l => joinSlash l

/-- `path.name`: the last component. -/
def pname (p : List String) : String := p.getLastD ""

/-- `str.lower()` (ASCII, as used on the `.exe` names here). -/
def lowerStr (s : String) : String := String.mk (s.data.map Char.toLower)

/-- `needle in hay` for strings: contiguous-substring test. -/
def listInfix {α : Type} [BEq α] (needle hay : List α) : Bool :=
  match hay with
  | [] => needle.isEmpty
  | _ :: t => needle.isPrefixOf hay || listInfix needle t

/-- Python `tok in s` (substring containment). -/
def strContains (s tok : String) : Bool := listInfix tok.data s.data

/-- Python `s.endswith(t)`. -/
def strEndsWith (s t : String) : Bool := t.data.isSuffixOf s.data

/-- A filesystem snapshot: the files yielded by the walk, in walk order,
and the directory-existence probe for the scan roots. -/
structure FS where
  files : List (List String)
  dirEx : List String → Bool

/-- `root.rglob("*.exe")`: files strictly below `root` whose name matches
`*.exe` (match is case-sensitive, as on a POSIX filesystem). -/
def rglobExe (fs : FS) (root : List String) : List (List String) :=
  fs.files.filter (fun p =>
    leadsParts root p && decide (root.length < p.length)
      && strEndsWith (pname p) ".exe")

/-- The two scan roots, in scan order (core.py lines 317-320). -/
def candidatesOf (pfx : List String) (fs : FS) : List (List String) :=
  (if fs.dirEx (pfx ++ ["drive_c", "Program Files"]) then
    rglobExe fs (pfx ++ ["drive_c", "Program Files"]) else [])
  ++ (if fs.dirEx (pfx ++ ["drive_c", "Program Files (x86)"]) then
    rglobExe fs (pfx ++ ["drive_c", "Program Files (x86)"]) else [])

/-- The deny-list of filenames (core.py lines 328-344). -/
def skipNames : List String :=
  ["iexplore.exe", "wmplayer.exe", "notepad.exe", "wordpad.exe", "explorer.exe",
   "rundll32.exe", "regedit.exe", "taskmgr.exe", "mshta.exe", "cmd.exe",
   "powershell.exe", "conhost.exe", "winecfg.exe", "uninstaller.exe", "setup.exe"]

/-- The denied directory-name tokens (core.py lines 346-351). -/
def skipDirTokens : List String :=
  ["Internet Explorer", "Windows Media Player", "Windows NT", "Common Files"]

/-- The filter loop (core.py lines 353-360): drop a candidate when its
lowercased name is deny-listed or its full path string contains a token. -/
def keepCandidate (p : List String) : Bool :=
  !(skipNames.contains (lowerStr (pname p)))
    && !(skipDirTokens.any (fun tok => strContains (pstr p) tok))

def filteredOf (pfx : List String) (fs : FS) : List (List String) :=
  (candidatesOf pfx fs).filter keepCandidate

/-- The preferred-name allow-list (core.py lines 365-371). -/
def preferNames : List String :=
  ["7zfm.exe", "notepad++.exe", "launcher.exe", "start.exe", "app.exe"]

/-- `score` (core.py lines 373-378): preferred-name membership (0 beats 1),
then `len(path.parts)`, then `len(str(path))`. -/
def score (p : List String) : Nat × Nat × Nat :=
  (if preferNames.contains (lowerStr (pname p)) then 0 else 1,
    p.length, (pstr p).length)

/-- Strict lexicographic comparison of score triples: Python tuple `<`. -/
def tripLt (a b : Nat × Nat × Nat) : Bool :=
  Nat.blt a.1 b.1 || (a.1 == b.1
    && (Nat.blt a.2.1 b.2.1 || (a.2.1 == b.2.1 && Nat.blt a.2.2 b.2.2)))

def scoreLt (p q : List String) : Bool := tripLt (score p) (score q)

/-- Stable insertion: the new element goes after every element it is not
strictly below, so earlier-walked ties stay first (Python sort stability). -/
def insAfter {α : Type} (lt : α → α → Bool) (a : α) : List α → List α
  | [] => [a]
  | b :: bs => if lt a b then a :: b :: bs else b :: insAfter lt a bs

/-- Stable sort by a strict comparison: Python's `sorted(l, key=score)`. -/
def stableSort {α : Type} (lt : α → α → Bool) (l : List α) : List α :=
  l.foldl (fun acc a => insAfter lt a acc) []

/-- Rendering (core.py lines 381-382): `"C:\\" + str(best.relative_to(drive_c))
.replace("/", "\\")`; candidates live under `drive_c`, whose `parts` length is
`pfx.length + 1`. -/
def renderExe (pfx best : List String) : String :=
  "C:\\" ++ String.mk
    ((joinSlash (best.drop (pfx.length + 1))).data.map
      (fun c => if c = '/' then '\\' else c))

/-- `_autodetect_exe`. -/
def autodetect_exe (pfx : List String) (fs : FS) : String :=
  let candidates := candidatesOf pfx fs
  if candidates.isEmpty then ""
  else
    let filtered := filteredOf pfx fs
    if filtered.isEmpty then ""
    else
      match stableSort scoreLt filtered with
      | [] => ""
      | best :: _ => renderExe pfx best

theorem mem_insAfter {α : Type} (lt : α → α → Bool) (a x : α) (l : List α) :
    x ∈ insAfter lt a l ↔ x = a ∨ x ∈ l := by
  induction l with
  | nil => simp [insAfter]
  | cons b bs ih =>
    by_cases hab : lt a b = true
    · simp [insAfter, hab]
    · simp only [insAfter, if_neg hab, List.mem_cons, ih]
      tauto

theorem length_insAfter {α : Type} (lt : α → α → Bool) (a : α) (l : List α) :
    (insAfter lt a l).length = l.length + 1 := by
  induction l with
  | nil => rfl
  | cons b bs ih =>
    by_cases hab : lt a b = true
    · simp [insAfter, hab]
    · simp [insAfter, hab, ih]

theorem mem_foldl_ins {α : Type} (lt : α → α → Bool) (l : List α) :
    ∀ (acc : List α) (x : α),
      (x ∈ l.foldl (fun acc a => insAfter lt a acc) acc) ↔ x ∈ acc ∨ x ∈ l := by
  induction l with
  | nil => simp
  | cons b bs ih =>
    intro acc x
    simp only [List.foldl_cons, ih, mem_insAfter, List.mem_cons]
    tauto

theorem mem_stableSort {α : Type} (lt : α → α → Bool) (l : List α) (x : α) :
    x ∈ stableSort lt l ↔ x ∈ l := by
  simp [stableSort, mem_foldl_ins]

theorem length_foldl_ins {α : Type} (lt : α → α → Bool) (l : List α) :
    ∀ acc : List α,
      (l.foldl (fun acc a => insAfter lt a acc) acc).length = acc.length + l.length := by
  induction l with
  | nil => simp
  | cons b bs ih =>
    intro acc
    simp only [List.foldl_cons, ih, length_insAfter, List.length_cons]
    omega

theorem length_stableSort {α : Type} (lt : α → α → Bool) (l : List α) :
    (stableSort lt l).length = l.length := by
  simp [stableSort, length_foldl_ins]

theorem pairwise_insAfter {α : Type} (lt : α → α → Bool)
    (hasym : ∀ x y, lt x y = true → lt y x = false)
    (htrans : ∀ x y z, lt x y = true → lt y z = true → lt x z = true)
    (a : α) (l : List α) (hl : l.Pairwise (fun x y => lt y x = false)) :
    (insAfter lt a l).Pairwise (fun x y => lt y x = false) := by
  induction l with
  | nil => simp [insAfter]
  | cons b bs ih =>
    rcases List.pairwise_cons.mp hl with ⟨hb, hbs⟩
    by_cases hab : lt a b = true
    · rw [insAfter, if_pos hab]
      refine List.pairwise_cons.mpr ⟨?_, hl⟩
      intro y hy
      rcases List.mem_cons.mp hy with rfl | hy2
      · exact hasym a y hab
      · by_cases hya : lt y a = true
        · have hyb := htrans y a b hya hab
          rw [hb y hy2] at hyb
          exact Bool.noConfusion hyb
        · simpa using hya
    · rw [insAfter, if_neg hab]
      refine List.pairwise_cons.mpr ⟨?_, ih hbs⟩
      intro y hy
      rcases (mem_insAfter lt a y bs).mp hy with rfl | hy2
      · simpa using hab
      · exact hb y hy2

theorem pairwise_foldl_ins {α : Type} (lt : α → α → Bool)
    (hasym : ∀ x y, lt x y = true → lt y x = false)
    (htrans : ∀ x y z, lt x y = true → lt y z = true → lt x z = true)
    (l : List α) :
    ∀ acc : List α, acc.Pairwise (fun x y => lt y x = false) →
      (l.foldl (fun acc a => insAfter lt a acc) acc).Pairwise
        (fun x y => lt y x = false) := by
  induction l with
  | nil => intro acc hacc; simpa using hacc
  | cons b bs ih =>
    intro acc hacc
    simp only [List.foldl_cons]
    exact ih _ (pairwise_insAfter lt hasym htrans b acc hacc)

theorem pairwise_stableSort {α : Type} (lt : α → α → Bool)
    (hasym : ∀ x y, lt x y = true → lt y x = false)
    (htrans : ∀ x y z, lt x y = true → lt y z = true → lt x z = true)
    (l : List α) :
    (stableSort lt l).Pairwise (fun x y => lt y x = false) :=
  pairwise_foldl_ins lt hasym htrans l [] (List.Pairwise.nil)

theorem stableSort_head_min {α : Type} (lt : α → α → Bool)
    (hasym : ∀ x y, lt x y = true → lt y x = false)
    (htrans : ∀ x y z, lt x y = true → lt y z = true → lt x z = true)
    (l : List α) (b : α) (t : List α) (hs : stableSort lt l = b :: t) :
    ∀ c ∈ l, lt c b = false := by
  intro c hc
  have hp : (b :: t).Pairwise (fun x y => lt y x = false) :=
    hs ▸ pairwise_stableSort lt hasym htrans l
  have hc2 : c ∈ b :: t := hs ▸ (mem_stableSort lt l c).mpr hc
  rcases List.mem_cons.mp hc2 with rfl | hct
  · by_cases hcc : lt c c = true
    · have := hasym c c hcc
      rw [this] at hcc
      exact Bool.noConfusion hcc
    · simpa using hcc
  · exact (List.pairwise_cons.mp hp).1 c hct

theorem eq_of_pairwise_ne {α β : Type} (f : α → β) (l : List α)
    (hnd : l.Pairwise (fun a b => f a ≠ f b)) :
    ∀ a b : α, a ∈ l → b ∈ l → f a = f b → a = b := by
  induction l with
  | nil => intro a b ha; exact absurd ha (List.not_mem_nil a)
  | cons x t ih =>
    rcases List.pairwise_cons.mp hnd with ⟨hx, ht⟩
    intro a b ha hb hf
    rcases List.mem_cons.mp ha with rfl | ha2
    · rcases List.mem_cons.mp hb with rfl | hb2
      · rfl
      · exact absurd hf (hx b hb2)
    · rcases List.mem_cons.mp hb with rfl | hb2
      · exact absurd hf.symm (hx a ha2)
      · exact ih ht a b ha2 hb2 hf

theorem tripLt_iff (a b : Nat × Nat × Nat) :
    tripLt a b = true ↔
      (a.1 < b.1 ∨ (a.1 = b.1 ∧ (a.2.1 < b.2.1 ∨ (a.2.1 = b.2.1 ∧ a.2.2 < b.2.2)))) := by
  simp [tripLt, Nat.blt_eq, Bool.or_eq_true, Bool.and_eq_true, beq_iff_eq]

theorem tripLt_asymm (a b : Nat × Nat × Nat) :
    tripLt a b = true → tripLt b a = false := by
  intro h
  by_cases h2 : tripLt b a = true
  · exfalso
    obtain ⟨a1, a2, a3⟩ := a
    obtain ⟨b1, b2, b3⟩ := b
    rw [tripLt_iff] at h h2
    simp only at h h2
    omega
  · simpa using h2

theorem tripLt_trans (a b c : Nat × Nat × Nat) :
    tripLt a b = true → tripLt b c = true → tripLt a c = true := by
  intro h1 h2
  obtain ⟨a1, a2, a3⟩ := a
  obtain ⟨b1, b2, b3⟩ := b
  obtain ⟨c1, c2, c3⟩ := c
  rw [tripLt_iff] at h1 h2 ⊢
  simp only at h1 h2 ⊢
  omega

theorem tripLt_conn (a b : Nat × Nat × Nat)
    (h1 : tripLt a b = false) (h2 : tripLt b a = false) : a = b := by
  obtain ⟨a1, a2, a3⟩ := a
  obtain ⟨b1, b2, b3⟩ := b
  have hn1 : ¬ (tripLt (a1, a2, a3) (b1, b2, b3) = true) := by simp [h1]
  have hn2 : ¬ (tripLt (b1, b2, b3) (a1, a2, a3) = true) := by simp [h2]
  rw [tripLt_iff] at hn1 hn2
  simp only [not_or, not_and, not_lt] at hn1 hn2
  simp only [Prod.mk.injEq]
  rcases hn1 with ⟨hn1a, hn1b⟩
  rcases hn2 with ⟨hn2a, hn2b⟩
  have he1 : a1 = b1 := by omega
  rcases hn1b he1 with ⟨hn1c, hn1d⟩
  rcases hn2b he1.symm with ⟨hn2c, hn2d⟩
  have he2 : a2 = b2 := by omega
  have he3 : a3 = b3 := by
    have := hn1d he2
    have := hn2d he2.symm
    omega
  exact ⟨he1, he2, he3⟩

theorem scoreLt_asymm (x y : List String) :
    scoreLt x y = true → scoreLt y x = false := fun h => tripLt_asymm _ _ h

theorem scoreLt_trans (x y z : List String) :
    scoreLt x y = true → scoreLt y z = true → scoreLt x z = true :=
  fun h1 h2 => tripLt_trans _ _ _ h1 h2

theorem autodetect_of_filtered_nil (pfx : List String) (fs : FS)
    (h : filteredOf pfx fs = []) : autodetect_exe pfx fs = "" := by
  simp only [autodetect_exe]
  by_cases hc : (candidatesOf pfx fs).isEmpty = true
  · rw [if_pos hc]
  · rw [if_neg hc, if_pos (by simp [h])]

theorem autodetect_of_filtered_ne (pfx : List String) (fs : FS)
    (h : filteredOf pfx fs ≠ []) :
    ∃ best, best ∈ filteredOf pfx fs
      ∧ (∀ c ∈ filteredOf pfx fs, scoreLt c best = false)
      ∧ autodetect_exe pfx fs = renderExe pfx best := by
  rcases hs : stableSort scoreLt (filteredOf pfx fs) with _ | ⟨best, t⟩
  · exfalso
    apply h
    have hlen := length_stableSort scoreLt (filteredOf pfx fs)
    rw [hs] at hlen
    exact List.length_eq_zero.mp hlen.symm
  · have hcand : (candidatesOf pfx fs).isEmpty = false := by
      rcases hcc : candidatesOf pfx fs with _ | ⟨x, xs⟩
      · exfalso
        apply h
        simp [filteredOf, hcc]
      · rfl
    have hfilt : (filteredOf pfx fs).isEmpty = false := by
      rcases hh : filteredOf pfx fs with _ | ⟨x, xs⟩
      · exact absurd hh h
      · rfl
    refine ⟨best, ?_, ?_, ?_⟩
    · exact (mem_stableSort scoreLt (filteredOf pfx fs) best).mp
        (hs ▸ List.mem_cons_self best t)
    · exact stableSort_head_min scoreLt scoreLt_asymm scoreLt_trans
        (filteredOf pfx fs) best t hs
    · simp only [autodetect_exe]
      rw [if_neg (by simp [hcand]), if_neg (by simp [hfilt]), hs]

/-- C4: autodetection returns "not found" (the empty string) when filtering
removes every candidate, and otherwise returns some filtered candidate —
one whose lowercased name is not deny-listed and whose path contains no
denied directory token — that is minimal under the three-key priority order
(no other filtered candidate scores strictly below it), rendered in
drive-letter-plus-backslash syntax relative to the drive root. -/
theorem autodetect_spec (pfx : List String) (fs : FS) :
    (filteredOf pfx fs = [] → autodetect_exe pfx fs = "")
    ∧ (filteredOf pfx fs ≠ [] →
        ∃ best, best ∈ candidatesOf pfx fs
          ∧ skipNames.contains (lowerStr (pname best)) = false
          ∧ skipDirTokens.any (fun tok => strContains (pstr best) tok) = false
          ∧ (∀ c ∈ filteredOf pfx fs, scoreLt c best = false)
          ∧ autodetect_exe pfx fs = renderExe pfx best) := by
  constructor
  · exact autodetect_of_filtered_nil pfx fs
  · intro h
    obtain ⟨best, hmem, hmin, heq⟩ := autodetect_of_filtered_ne pfx fs h
    rw [filteredOf] at hmem
    rcases List.mem_filter.mp hmem with ⟨hcand, hkeep⟩
    rw [keepCandidate, Bool.and_eq_true, Bool.not_eq_true', Bool.not_eq_true'] at hkeep
    exact ⟨best, hcand, hkeep.1, hkeep.2, hmin, heq⟩

/-- The prefix used by the concrete autodetection scenarios. -/
def pfxA : List String := ["/", "p"]

/-- Directory probe: only `Program Files` exists under the drive. -/
def dirExPF : List String → Bool :=
  fun r => r == ["/", "p", "drive_c", "Program Files"]

def fTieA : List String := ["/", "p", "drive_c", "Program Files", "aa.exe"]
def fTieB : List String := ["/", "p", "drive_c", "Program Files", "bb.exe"]

/-- The same two tied candidates (equal score triples), walked in the two
possible orders. -/
def fsTie1 : FS where
  files := [fTieA, fTieB]
  dirEx := dirExPF

def fsTie2 : FS where
  files := [fTieB, fTieA]
  dirEx := dirExPF

/-- Witness for `autodetect_spec` on a concrete snapshot. -/
theorem autodetect_spec_witness :
    (filteredOf pfxA fsTie1 ≠ [])
    ∧ ∃ best, best ∈ candidatesOf pfxA fsTie1
        ∧ skipNames.contains (lowerStr (pname best)) = false
        ∧ skipDirTokens.any (fun tok => strContains (pstr best) tok) = false
        ∧ (∀ c ∈ filteredOf pfxA fsTie1, scoreLt c best = false)
        ∧ autodetect_exe pfxA fsTie1 = renderExe pfxA best :=
  ⟨by decide, (autodetect_spec pfxA fsTie1).2 (by decide)⟩

/-- Counterexample to C5 as stated: two walks of the same snapshot (the file
lists are permutations of each other; the directory probe is identical) pick
different executables, because the two candidates tie on all three score
keys and Python's stable sort then keeps the earlier-walked one first. -/
theorem autodetect_order_dependent :
    fsTie1.files.Perm fsTie2.files
    ∧ score fTieA = score fTieB
    ∧ autodetect_exe pfxA fsTie1 = "C:\\Program Files\\aa.exe"
    ∧ autodetect_exe pfxA fsTie2 = "C:\\Program Files\\bb.exe"
    ∧ autodetect_exe pfxA fsTie1 ≠ autodetect_exe pfxA fsTie2 := by
  refine ⟨by decide, by decide, by decide, by decide, by decide⟩

/-- Amended C5: detection is a deterministic function of the walk sequence
(running it twice over the identical snapshot trivially yields the same
path), and it is independent of the iteration order whenever no two filtered
candidates share a score triple; when candidates tie on all three keys, the
earlier-walked one wins, so the result then depends on the walk order. -/
theorem autodetect_perm_invariant (pfx : List String) (fs1 fs2 : FS)
    (hperm : fs1.files.Perm fs2.files) (hdir : fs1.dirEx = fs2.dirEx)
    (hnd : (filteredOf pfx fs1).Pairwise (fun a b => score a ≠ score b)) :
    autodetect_exe pfx fs1 = autodetect_exe pfx fs2 := by
  have hcand : (candidatesOf pfx fs1).Perm (candidatesOf pfx fs2) := by
    unfold candidatesOf rglobExe
    rw [hdir]
    refine List.Perm.append ?_ ?_ <;> split
    · exact hperm.filter _
    · exact List.Perm.refl []
    · exact hperm.filter _
    · exact List.Perm.refl []
  have hfil : (filteredOf pfx fs1).Perm (filteredOf pfx fs2) := hcand.filter _
  rcases hf1 : filteredOf pfx fs1 with _ | ⟨x, xs⟩
  · have hf2 : filteredOf pfx fs2 = [] := by
      rw [hf1] at hfil
      exact (hfil.symm).eq_nil
    rw [autodetect_of_filtered_nil pfx fs1 hf1, autodetect_of_filtered_nil pfx fs2 hf2]
  · have h1 : filteredOf pfx fs1 ≠ [] := by simp [hf1]
    have h2 : filteredOf pfx fs2 ≠ [] := by
      intro he
      rw [he] at hfil
      exact h1 hfil.eq_nil
    obtain ⟨b1, hb1m, hb1min, hb1eq⟩ := autodetect_of_filtered_ne pfx fs1 h1
    obtain ⟨b2, hb2m, hb2min, hb2eq⟩ := autodetect_of_filtered_ne pfx fs2 h2
    have hb2in1 : b2 ∈ filteredOf pfx fs1 := hfil.mem_iff.mpr hb2m
    have hb1in2 : b1 ∈ filteredOf pfx fs2 := hfil.mem_iff.mp hb1m
    have e1 : scoreLt b2 b1 = false := hb1min b2 hb2in1
    have e2 : scoreLt b1 b2 = false := hb2min b1 hb1in2
    have hseq : score b1 = score b2 := tripLt_conn (score b1) (score b2) e2 e1
    have hbb : b1 = b2 := eq_of_pairwise_ne score (filteredOf pfx fs1) hnd
      b1 b2 hb1m hb2in1 hseq
    rw [hb1eq, hb2eq, hbb]

def fDepA : List String := ["/", "p", "drive_c", "Program Files", "aa.exe"]
def fDepC : List String := ["/", "p", "drive_c", "Program Files", "sub", "cc.exe"]

/-- Two candidates with distinct score triples, walked in the two orders. -/
def fsScore1 : FS where
  files := [fDepA, fDepC]
  dirEx := dirExPF

def fsScore2 : FS where
  files := [fDepC, fDepA]
  dirEx := dirExPF

/-- Witness for `autodetect_perm_invariant` on a concrete snapshot with
pairwise-distinct scores. -/
theorem autodetect_perm_invariant_witness :
    fsScore1.files.Perm fsScore2.files
    ∧ autodetect_exe pfxA fsScore1 = autodetect_exe pfxA fsScore2 :=
  ⟨by decide, autodetect_perm_invariant pfxA fsScore1 fsScore2 (by decide) rfl (by decide)⟩

def fCaseSetup : List String :=
  ["/", "p", "drive_c", "Program Files", "SETUP.exe"]
def fCaseLower : List String :=
  ["/", "p", "drive_c", "Program Files", "common files", "app.exe"]
def fCaseUpper : List String :=
  ["/", "p", "drive_c", "Program Files", "Common Files", "tool.exe"]

/-- A snapshot exercising the case conventions of the filter: a mixed-case
deny-listed name, a lowercase `common files` directory, and the exact-case
`Common Files` directory. -/
def fsCase : FS where
  files := [fCaseSetup, fCaseLower, fCaseUpper]
  dirEx := dirExPF

/-- C10: filename matching against the deny-list and the preferred-name list
lowercases the name first (so `SETUP.exe` is denied even in mixed case, and
`APP.exe` counts as preferred), while the denied directory-token filter is a
case-sensitive substring test on the full path string (so the exact-case
`Common Files` path is dropped but the lowercase `common files` path
survives and is returned). -/
theorem filter_case_conventions :
    candidatesOf pfxA fsCase = [fCaseSetup, fCaseLower, fCaseUpper]
    ∧ lowerStr (pname fCaseSetup) = "setup.exe"
    ∧ skipNames.contains (lowerStr (pname fCaseSetup)) = true
    ∧ strContains (pstr fCaseLower) "Common Files" = false
    ∧ strContains (pstr fCaseUpper) "Common Files" = true
    ∧ filteredOf pfxA fsCase = [fCaseLower]
    ∧ (score ["/", "p", "drive_c", "Program Files", "zz", "APP.exe"]).1 = 0
    ∧ (score fCaseUpper).1 = 1
    ∧ autodetect_exe pfxA fsCase = "C:\\Program Files\\common files\\app.exe" := by
  refine ⟨by decide, by decide, by decide, by decide, by decide, by decide, by decide,
    by decide, by decide⟩
